import Mathlib

/-!
Verification development for the adaptive assessment engine of the quiz
application in `app.py` (single-file Flask app).  The pure decision logic of
the source is shallowly embedded here:

* `normalize_words` / `subjective_similarity` (app.py lines 97-106),
* `assign_level_by_score` (lines 108-116),
* the mcq / subjective grading of a submitted answer
  (`quiz_passage`, lines 445-453; the placement route, lines 367-374,
  performs the same comparisons),
* the placement-round question selection (lines 353-361),
* the adaptive level filter of `quiz_passage` (lines 428-438),
* the score aggregation of `quiz_complete` (lines 589-591) and of the
  teacher dashboard GROUP BY queries (lines 602-616).

Strings are modelled over Lean `Char` lists; the character-level helpers
(`charLower`, `isPySpace`, `isWordChar`) are the ASCII-faithful meanings of
Python `str.lower`, `str.strip` and the regex `\w`.  Numbers that Python
holds as `float` are modelled as exact rationals; the comparisons the source
performs (`>= 0.6`, `>= 80`, `>= 40`) are at rationals whose float images
are exact for all realistic inputs, so the rational model agrees with the
float computation there.  Randomness (`random.sample`) is modelled
relationally by `IsSample`: every property proved below holds for every
draw the random source can produce.
-/

/-- ASCII meaning of Python `str.lower` on one character. -/
def charLower (c : Char) : Char :=
  match c with
  | 'A' => 'a' | 'B' => 'b' | 'C' => 'c' | 'D' => 'd' | 'E' => 'e'
  | 'F' => 'f' | 'G' => 'g' | 'H' => 'h' | 'I' => 'i' | 'J' => 'j'
  | 'K' => 'k' | 'L' => 'l' | 'M' => 'm' | 'N' => 'n' | 'O' => 'o'
  | 'P' => 'p' | 'Q' => 'q' | 'R' => 'r' | 'S' => 's' | 'T' => 't'
  | 'U' => 'u' | 'V' => 'v' | 'W' => 'w' | 'X' => 'x' | 'Y' => 'y'
  | 'Z' => 'z'
  | c => c

/-- The whitespace characters removed by Python `str.strip`:
space, tab, newline, carriage return, vertical tab, form feed. -/
def isPySpace (c : Char) : Bool :=
  decide (c = ' ' ∨ c = '\t' ∨ c = '\n' ∨ c = '\r' ∨ c = Char.ofNat 11 ∨ c = Char.ofNat 12)

/-- A character matched by the regex `\w` (Python `re`, ASCII fragment):
letters, digits, underscore. -/
def isWordChar (c : Char) : Bool :=
  c.isAlphanum || c = '_'

/-- Python `str.lower`. -/
def pyLower (s : String) : String :=
  String.mk (s.data.map charLower)

/-- Python `str.strip` on a character list: remove leading and trailing
whitespace. -/
def stripChars (l : List Char) : List Char :=
  List.rdropWhile isPySpace (List.dropWhile isPySpace l)

/-- Python `str.strip`. -/
def pyStrip (s : String) : String :=
  String.mk (stripChars s.data)

/-- Maximal runs of characters satisfying `p`; `acc` is the (reversed)
run currently being read.  `runsBy p l` is `re.findall` for the
character class `p`. -/
def runsByAux (p : Char → Bool) : List Char → List Char → List (List Char)
  | [], acc => if acc.isEmpty then [] else [acc.reverse]
  | c :: cs, acc =>
    if p c then runsByAux p cs (c :: acc)
    else if acc.isEmpty then runsByAux p cs []
    else acc.reverse :: runsByAux p cs []

/-- Maximal runs of characters satisfying `p`. -/
def runsBy (p : Char → Bool) (l : List Char) : List (List Char) :=
  runsByAux p l []

/-- `_word_re.findall(s)` of the source (app.py line 95): the maximal
`\w`-runs of `s`, in order. -/
def findallWords (s : String) : List String :=
  (runsBy isWordChar s.data).map String.mk

/-- `normalize_words` (app.py lines 97-99): lowercase the text, take the set
of its `\w+` tokens; empty / falsy text gives the empty set. -/
def normalize_words (txt : String) : Finset String :=
  if txt = "" then ∅ else (findallWords (pyLower txt)).toFinset

/-- `subjective_similarity` (app.py lines 101-106).  The arguments are
`Option String` because the database column is nullable; the source
defaults `None` to `""` with `or ""`. -/
def subjective_similarity (student_ans teacher_ans : Option String) : ℚ :=
  if normalize_words (teacher_ans.getD "") = ∅ then 0
  else (((normalize_words (teacher_ans.getD "")).filter
      (fun w => w ∈ normalize_words (student_ans.getD ""))).card : ℚ) /
    ((normalize_words (teacher_ans.getD "")).card : ℚ)

/-- `assign_level_by_score` (app.py lines 108-116). -/
def assign_level_by_score (score total : ℤ) : String :=
  if total = 0 then "unknown"
  else if 80 ≤ ((score * 100 : ℤ) : ℚ) / (total : ℚ) then "advanced"
  else if 40 ≤ ((score * 100 : ℤ) : ℚ) / (total : ℚ) then "intermediate"
  else "beginner"

/-- A row of the `Question` table (app.py lines 63-75). -/
structure Question where
  id : ℕ
  quiz_id : Option ℕ
  passage_id : Option ℕ
  text : String
  qtype : String
  option_a : Option String
  option_b : Option String
  option_c : Option String
  option_d : Option String
  correct : Option String
  difficulty : String
  marks : ℤ
deriving DecidableEq

/-- A row of the `Attempt` table (app.py lines 77-86). -/
structure Attempt where
  id : ℕ
  student_id : ℕ
  quiz_id : ℕ
  passage_id : Option ℕ
  question_id : ℕ
  student_answer : Option String
  correct : ℤ
  time_taken : ℚ
deriving DecidableEq

/-- Grading one submitted answer in `quiz_passage` (app.py lines 445-453):
the route strips the raw form value (line 445), then an mcq answer is
compared to the key after a second strip and a lowercase (line 450), and a
subjective answer is accepted when the keyword similarity reaches 0.6
(lines 452-453).  The placement route (lines 367-374) performs the same
comparisons. -/
def grade_question (q : Question) (raw : String) : Bool :=
  if q.qtype = "mcq" then
    decide (pyLower (pyStrip (pyStrip raw)) = pyLower (pyStrip (q.correct.getD "")))
  else
    decide ((3 : ℚ) / 5 ≤
      subjective_similarity (some (pyStrip raw)) (some (q.correct.getD "")))

/-- Tokenizer written from the specification's words (§4.3: "alphanumeric
runs, punctuation and whitespace are separators"): maximal runs of
alphanumeric characters of the lowercased text.  It differs from the
source's `\w+` tokenizer (`normalize_words`) on the underscore, which the
regex `\w` counts as a word character. -/
def spec_alnum_tokens (txt : String) : Finset String :=
  ((runsBy Char.isAlphanum (pyLower txt).data).map String.mk).toFinset

/-- The difficulty filter of `quiz_passage` (app.py lines 430-434): the
predicate a question must satisfy to survive the adaptive level filter. -/
def level_allows (level : String) (q : Question) : Bool :=
  decide ((q.difficulty = "easy" ∨ q.difficulty = "medium" ∨ q.difficulty = "hard") ∧
    ((level = "beginner" ∧ (q.difficulty = "easy" ∨ q.difficulty = "medium")) ∨
     (level = "intermediate" ∧ (q.difficulty = "medium" ∨ q.difficulty = "hard")) ∨
     (level = "advanced" ∧ (q.difficulty = "hard" ∨ q.difficulty = "medium"))))

/-- The adaptive level filter of `quiz_passage` (app.py lines 428-436): when
the quiz has `use_level_filter` set and the student's level is set and not
"unknown", keep the questions allowed for that level, falling back to the
unfiltered list when the filtered one is empty. -/
def apply_level_filter (use_level_filter : Bool) (level : String)
    (questions : List Question) : List Question :=
  if use_level_filter = true ∧ level ≠ "" ∧ level ≠ "unknown" then
    if (questions.filter (level_allows level)).isEmpty then questions
    else questions.filter (level_allows level)
  else questions

/-- The per-difficulty pool of the placement route's `pick`
(app.py line 355). -/
def pickPool (all_qs : List Question) (diff : String) : List Question :=
  all_qs.filter (fun q => decide (q.difficulty = diff))

/-- One outcome of `random.sample(pool, min(n, len(pool)))` (app.py
line 356): a list of elements drawn from `pool` at distinct positions
(a permutation of a sublist), of length `min n (pool.length)`. -/
def IsSample (s pool : List Question) (n : ℕ) : Prop :=
  s.Subperm pool ∧ s.length = min n pool.length

/-- The placement-round selection (app.py lines 353-361), relationally over
the random draws.  The source fixes `ke = km = 2`, `kh = 1` (the three
`pick` calls of line 357) and `n = 5` (lines 358-361); the embedding keeps
them as parameters so that statements about other quota profiles and
desired counts can be expressed.  `chosen` is a possible final value of the
source's `chosen` list: the three bucket draws concatenated, then, if fewer
than `n` questions were chosen, a draw of `min (n - chosen) (rest)` from
the not-yet-chosen questions. -/
def PlacementSelect (all_qs : List Question) (ke km kh : ℕ) (n : ℤ)
    (chosen : List Question) : Prop :=
  ∃ e md hd,
    IsSample e (pickPool all_qs "easy") ke ∧
    IsSample md (pickPool all_qs "medium") km ∧
    IsSample hd (pickPool all_qs "hard") kh ∧
    ((¬(((e ++ md ++ hd).length : ℤ) < n) ∧ chosen = e ++ md ++ hd) ∨
     ((((e ++ md ++ hd).length : ℤ) < n) ∧ ∃ f,
        IsSample f (all_qs.filter (fun q => decide (q ∉ e ++ md ++ hd)))
          (n - (e ++ md ++ hd).length).toNat ∧
        chosen = (e ++ md ++ hd) ++ f))

/-- Rounding to two decimal places, the model of Python `round(x, 2)`. -/
def round2 (x : ℚ) : ℚ :=
  ((round (x * 100) : ℤ) : ℚ) / 100

/-- One row of the teacher-dashboard aggregates (app.py lines 602-616):
a group key, the attempt count, the correct count and the percentage. -/
structure GroupStat (K : Type) where
  key : K
  count : ℕ
  correctCount : ℤ
  percentage : ℚ
deriving DecidableEq

/-- The rows of one dashboard group: the attempts whose key equals `k`. -/
def groupRows {K : Type} [DecidableEq K] (attempts : List Attempt)
    (key : Attempt → K) (k : K) : List Attempt :=
  attempts.filter (fun a => decide (key a = k))

/-- The dashboard aggregation (app.py lines 602-616): the SQL
`GROUP BY key` with `sum(correct)` and `count(*)`, and
`round((correct or 0) / (count or 1) * 100, 2)` per group.  A group key
appears exactly when some attempt maps to it. -/
def aggregate {K : Type} [DecidableEq K] (attempts : List Attempt)
    (key : Attempt → K) : List (GroupStat K) :=
  ((attempts.map key).dedup).map (fun k =>
    ⟨k, (groupRows attempts key k).length,
      ((groupRows attempts key k).map (fun a => a.correct)).sum,
      round2 (((((groupRows attempts key k).map (fun a => a.correct)).sum : ℤ) : ℚ) /
        (((if (groupRows attempts key k).length = 0 then 1
           else (groupRows attempts key k).length) : ℕ) : ℚ) * 100)⟩)

/-- The student-and-quiz attempt rows counted by `quiz_complete`. -/
def quizRows (attempts : List Attempt) (sid qid : ℕ) : List Attempt :=
  attempts.filter (fun a => decide (a.student_id = sid ∧ a.quiz_id = qid))

/-- The score page `quiz_complete` (app.py lines 589-591): count and
correct-sum of the student's attempts on the quiz, and
`round((correct/total)*100, 2) if total > 0 else 0.0`. -/
def quiz_complete_pct (attempts : List Attempt) (sid qid : ℕ) : ℚ :=
  if 0 < (quizRows attempts sid qid).length then
    round2 (((((quizRows attempts sid qid).map (fun a => a.correct)).sum : ℤ) : ℚ) /
      ((quizRows attempts sid qid).length : ℚ) * 100)
  else 0

/-- The order of proficiency levels used to state monotonicity of the
classifier: beginner < intermediate < advanced (unassigned strings rank
lowest). -/
def level_rank (level : String) : ℕ :=
  if level = "beginner" then 1
  else if level = "intermediate" then 2
  else if level = "advanced" then 3
  else 0

/-- The mcq question with an empty answer key used in the counterexamples
for C2 and C3. -/
def qEmptyKey : Question :=
  ⟨1, none, none, "2+2=?", "mcq", some "yes", some "no", none, none, some "", "easy", 1⟩

/-- The mcq demo question of C2's witness. -/
def qParis : Question :=
  ⟨4, none, none, "capital?", "mcq", some "Paris", some "Rome", none, none,
   some "Paris", "easy", 1⟩

/-- The option strings a question offers (app.py lines 383-386 and 497-500:
`option_a` through `option_d`, skipping the empty ones). -/
def questionOptions (q : Question) : List String :=
  [q.option_a, q.option_b, q.option_c, q.option_d].filterMap id

/-- A subjective question with an empty key (C3 witness). -/
def qEmptySubj : Question :=
  ⟨5, none, none, "explain", "subjective", none, none, none, none, some "", "medium", 1⟩

/-- An mcq question whose key is not among its options (C3 witness). -/
def qBadKey : Question :=
  ⟨6, none, none, "pick", "mcq", some "yes", some "no", none, none, some "maybe", "easy", 1⟩

/-- The subjective question with an underscore in its key, used in the
counterexamples for C4 and C10. -/
def qUnderscore : Question :=
  ⟨2, none, none, "name the token", "subjective", none, none, none, none,
   some "a_b", "medium", 1⟩

/-- The seed-data subjective question (app.py line 878), used as C4's
witness. -/
def qPrime : Question :=
  ⟨7, none, none, "Explain prime numbers", "subjective", none, none, none, none,
   some "divisible only by 1 and itself", "hard", 1⟩

/-- Four attempts on quiz 7, three of them correct (the aggregator's
worked case in the specification). -/
def demoAttempts : List Attempt :=
  [⟨1, 1, 7, none, 11, some "a", 1, 0⟩, ⟨2, 1, 7, none, 12, some "b", 1, 0⟩,
   ⟨3, 1, 7, none, 13, some "c", 1, 0⟩, ⟨4, 1, 7, none, 14, some "d", 0, 0⟩]

/-- The single easy question used by the selection counterexample and
witnesses. -/
def qEasy : Question :=
  ⟨9, none, none, "easy one", "mcq", some "1", some "2", none, none, some "1", "easy", 1⟩

/-! ### Lemmas about the string model -/

lemma not_head_dropWhile (p : Char → Bool) (l : List Char) :
    ∀ a t, List.dropWhile p l = a :: t → p a = false := by
  induction l with
  | nil => intro a t h; simp [List.dropWhile] at h
  | cons c cs ih =>
    intro a t h
    rw [List.dropWhile_cons] at h
    by_cases hc : p c
    · rw [if_pos hc] at h; exact ih a t h
    · rw [if_neg hc] at h
      cases h
      simpa using hc

lemma dropWhile_stripChars (l : List Char) :
    List.dropWhile isPySpace (stripChars l) = stripChars l := by
  unfold stripChars
  set u := List.dropWhile isPySpace l with hu
  have hpre : List.rdropWhile isPySpace u <+: u := List.rdropWhile_prefix _ _
  cases hr : List.rdropWhile isPySpace u with
  | nil => rfl
  | cons a r =>
    rw [hr] at hpre
    obtain ⟨t, ht⟩ := hpre
    have ha : isPySpace a = false := by
      refine not_head_dropWhile isPySpace l a (r ++ t) ?_
      rw [← hu, ← ht]; rfl
    rw [List.dropWhile_cons, ha]
    simp

lemma stripChars_idem (l : List Char) : stripChars (stripChars l) = stripChars l := by
  have h1 : List.dropWhile isPySpace (stripChars l) = stripChars l :=
    dropWhile_stripChars l
  show List.rdropWhile isPySpace (List.dropWhile isPySpace (stripChars l)) = stripChars l
  rw [h1]
  exact List.rdropWhile_idempotent _ _

lemma pyStrip_idem (s : String) : pyStrip (pyStrip s) = pyStrip s :=
  congrArg String.mk (stripChars_idem s.data)

lemma runsByAux_sep_eval (p : Char → Bool) (sfx : List Char)
    (hs : ∀ c ∈ sfx, p c = false) :
    ∀ acc, runsByAux p sfx acc = if acc.isEmpty then [] else [acc.reverse] := by
  induction sfx with
  | nil => intro acc; rfl
  | cons c cs ih =>
    intro acc
    have hc : p c = false := hs c (by simp)
    have ihs : ∀ d ∈ cs, p d = false := fun d hd => hs d (by simp [hd])
    simp only [runsByAux, hc, Bool.false_eq_true, if_false]
    by_cases ha : acc.isEmpty
    · rw [if_pos ha, if_pos ha, ih ihs []]
      rfl
    · rw [if_neg ha, if_neg ha, ih ihs []]
      rfl

lemma runsByAux_append_sep (p : Char → Bool) (sfx : List Char)
    (hs : ∀ c ∈ sfx, p c = false) :
    ∀ l acc, runsByAux p (l ++ sfx) acc = runsByAux p l acc := by
  intro l
  induction l with
  | nil =>
    intro acc
    rw [List.nil_append, runsByAux_sep_eval p sfx hs acc]
    rfl
  | cons a l ih =>
    intro acc
    simp only [List.cons_append, runsByAux]
    by_cases hp : p a
    · rw [if_pos hp, if_pos hp]
      exact ih (a :: acc)
    · rw [if_neg hp, if_neg hp]
      by_cases ha : acc.isEmpty
      · rw [if_pos ha, if_pos ha]
        exact ih []
      · rw [if_neg ha, if_neg ha]
        exact congrArg _ (ih [])

lemma runsBy_dropWhile_sep (q p : Char → Bool)
    (hqp : ∀ c, q c = true → p c = false) (l : List Char) :
    runsBy p (List.dropWhile q l) = runsBy p l := by
  induction l with
  | nil => rfl
  | cons c cs ih =>
    rw [List.dropWhile_cons]
    by_cases hq : q c
    · rw [if_pos hq, ih]
      have hp : p c = false := hqp c hq
      simp [runsBy, runsByAux, hp]
    · rw [if_neg hq]

lemma runsBy_stripChars (p : Char → Bool)
    (hsp : ∀ c, isPySpace c = true → p c = false) (l : List Char) :
    runsBy p (stripChars l) = runsBy p l := by
  unfold stripChars
  set u := List.dropWhile isPySpace l with hu
  have hsplit : u = List.rdropWhile isPySpace u ++ List.rtakeWhile isPySpace u := by
    have h1 : List.takeWhile isPySpace u.reverse ++ List.dropWhile isPySpace u.reverse
        = u.reverse := List.takeWhile_append_dropWhile isPySpace u.reverse
    have h2 := congrArg List.reverse h1
    rw [List.reverse_append, List.reverse_reverse] at h2
    exact h2.symm
  have htk : ∀ c ∈ List.rtakeWhile isPySpace u, p c = false := by
    intro c hc
    exact hsp c (List.mem_rtakeWhile_imp hc)
  calc runsBy p (List.rdropWhile isPySpace u)
      = runsBy p (List.rdropWhile isPySpace u ++ List.rtakeWhile isPySpace u) :=
        (runsByAux_append_sep p _ htk _ []).symm
    _ = runsBy p u := by rw [← hsplit]
    _ = runsBy p l := runsBy_dropWhile_sep isPySpace p hsp l

lemma isPySpace_charLower (c : Char) : isPySpace (charLower c) = isPySpace c := by
  unfold charLower
  split <;> rfl

lemma space_not_word (c : Char) (h : isPySpace c = true) : isWordChar c = false := by
  unfold isPySpace at h
  rw [decide_eq_true_eq] at h
  rcases h with h | h | h | h | h | h <;> subst h <;> decide

lemma dropWhile_map_comm (f : Char → Char) (p : Char → Bool) (l : List Char) :
    List.dropWhile p (l.map f) = (List.dropWhile (fun c => p (f c)) l).map f := by
  induction l with
  | nil => rfl
  | cons a l ih =>
    simp only [List.map_cons, List.dropWhile_cons]
    by_cases h : p (f a)
    · rw [if_pos h, if_pos h, ih]
    · rw [if_neg h, if_neg h]
      rfl

lemma stripChars_map_charLower (l : List Char) :
    stripChars (l.map charLower) = (stripChars l).map charLower := by
  have hfun : (fun c => isPySpace (charLower c)) = isPySpace := by
    funext c; exact isPySpace_charLower c
  unfold stripChars List.rdropWhile
  rw [dropWhile_map_comm, hfun, ← List.map_reverse, dropWhile_map_comm, hfun,
    ← List.map_reverse]

lemma normalize_words_eq (txt : String) :
    normalize_words txt = (findallWords (pyLower txt)).toFinset := by
  unfold normalize_words
  split
  · rename_i h
    subst h
    rfl
  · rfl

lemma normalize_words_pyStrip (s : String) :
    normalize_words (pyStrip s) = normalize_words s := by
  rw [normalize_words_eq, normalize_words_eq]
  unfold findallWords pyLower pyStrip
  have h1 : (String.mk ((String.mk (stripChars s.data)).data.map charLower)).data
      = stripChars (s.data.map charLower) := by
    show (stripChars s.data).map charLower = stripChars (s.data.map charLower)
    exact (stripChars_map_charLower s.data).symm
  rw [h1]
  rw [runsBy_stripChars isWordChar space_not_word]

lemma subjective_threshold_iff (s t : Option String) :
    ((3 : ℚ) / 5 ≤ subjective_similarity s t) ↔
    (normalize_words (t.getD "") ≠ ∅ ∧
     3 * (normalize_words (t.getD "")).card ≤
       5 * ((normalize_words (t.getD "")).filter
         (fun w => w ∈ normalize_words (s.getD ""))).card) := by
  unfold subjective_similarity
  split
  · rename_i h
    simp only [h, ne_eq, not_true_eq_false, false_and, iff_false, not_le]
    norm_num
  · rename_i h
    have hpos : 0 < (normalize_words (t.getD "")).card :=
      Finset.card_pos.mpr (Finset.nonempty_iff_ne_empty.mpr h)
    have hq : (0 : ℚ) < ((normalize_words (t.getD "")).card : ℚ) := by
      exact_mod_cast hpos
    rw [div_le_div_iff₀ (by norm_num) hq]
    constructor
    · intro hle
      refine ⟨h, ?_⟩
      have : (3 : ℚ) * (normalize_words (t.getD "")).card ≤
          5 * ((normalize_words (t.getD "")).filter
            (fun w => w ∈ normalize_words (s.getD ""))).card := by
        calc (3 : ℚ) * (normalize_words (t.getD "")).card ≤
            ((normalize_words (t.getD "")).filter
              (fun w => w ∈ normalize_words (s.getD ""))).card * 5 := hle
          _ = 5 * ((normalize_words (t.getD "")).filter
              (fun w => w ∈ normalize_words (s.getD ""))).card := by ring
      exact_mod_cast this
    · intro ⟨_, hle⟩
      have : (3 : ℚ) * (normalize_words (t.getD "")).card ≤
          5 * ((normalize_words (t.getD "")).filter
            (fun w => w ∈ normalize_words (s.getD ""))).card := by
        exact_mod_cast hle
      calc (3 : ℚ) * (normalize_words (t.getD "")).card ≤
          5 * ((normalize_words (t.getD "")).filter
            (fun w => w ∈ normalize_words (s.getD ""))).card := this
        _ = ((normalize_words (t.getD "")).filter
            (fun w => w ∈ normalize_words (s.getD ""))).card * 5 := by ring

/-- Evaluated form of subjective grading: the 0.6 threshold on the rational
similarity, expressed over token-set cardinalities of the raw answer and the
key. -/
lemma grade_subjective_iff (q : Question) (raw : String) (h : ¬ q.qtype = "mcq") :
    grade_question q raw = true ↔
    (normalize_words (q.correct.getD "") ≠ ∅ ∧
     3 * (normalize_words (q.correct.getD "")).card ≤
       5 * ((normalize_words (q.correct.getD "")).filter
         (fun w => w ∈ normalize_words raw)).card) := by
  unfold grade_question
  rw [if_neg h]
  rw [decide_eq_true_eq]
  rw [subjective_threshold_iff]
  simp only [Option.getD_some, normalize_words_pyStrip]

/-! ### The level classifier (claims C1, C9) -/

lemma assign_eval (score total : ℤ) (h : total ≠ 0) :
    assign_level_by_score score total =
      if 80 ≤ (score : ℚ) / (total : ℚ) * 100 then "advanced"
      else if 40 ≤ (score : ℚ) / (total : ℚ) * 100 then "intermediate"
      else "beginner" := by
  have hpct : ((score * 100 : ℤ) : ℚ) / (total : ℚ) = (score : ℚ) / (total : ℚ) * 100 := by
    push_cast
    ring
  unfold assign_level_by_score
  rw [if_neg h, hpct]

/-- C1: for all integers `score`, `total`, the classifier returns "unknown"
exactly when `total = 0`; otherwise, with `pct = score / total * 100` (exact
rational arithmetic), it returns "advanced" iff `80 ≤ pct`, "intermediate"
iff `40 ≤ pct < 80`, and "beginner" iff `pct < 40`; and
`classify 8 10 = advanced`, `classify 5 10 = intermediate`,
`classify 3 10 = beginner`. -/
theorem classify_contract (score total : ℤ) :
    (assign_level_by_score score total = "unknown" ↔ total = 0) ∧
    (total ≠ 0 →
      ((assign_level_by_score score total = "advanced" ↔
          80 ≤ (score : ℚ) / (total : ℚ) * 100) ∧
       (assign_level_by_score score total = "intermediate" ↔
          (40 ≤ (score : ℚ) / (total : ℚ) * 100 ∧
           (score : ℚ) / (total : ℚ) * 100 < 80)) ∧
       (assign_level_by_score score total = "beginner" ↔
          (score : ℚ) / (total : ℚ) * 100 < 40))) ∧
    assign_level_by_score 8 10 = "advanced" ∧
    assign_level_by_score 5 10 = "intermediate" ∧
    assign_level_by_score 3 10 = "beginner" := by
  refine ⟨?_, ?_, ?_, ?_, ?_⟩
  · by_cases h : total = 0
    · simp [assign_level_by_score, h]
    · rw [assign_eval score total h]
      split_ifs <;> simp [h]
  · intro h
    rw [assign_eval score total h]
    refine ⟨?_, ?_, ?_⟩
    · split_ifs with h1 h2
      · exact iff_of_true rfl h1
      · exact iff_of_false (by decide) h1
      · exact iff_of_false (by decide) h1
    · split_ifs with h1 h2
      · exact iff_of_false (by decide) (fun hc => absurd h1 (not_le.mpr hc.2))
      · exact iff_of_true rfl ⟨h2, not_le.mp h1⟩
      · exact iff_of_false (by decide) (fun hc => h2 hc.1)
    · split_ifs with h1 h2
      · exact iff_of_false (by decide) (fun hc => by linarith)
      · exact iff_of_false (by decide) (not_lt.mpr h2)
      · exact iff_of_true rfl (not_le.mp h2)
  · norm_num [assign_level_by_score]
  · norm_num [assign_level_by_score]
  · norm_num [assign_level_by_score]

/-- Witness for C1 at `score = 8`, `total = 10`. -/
theorem classify_contract_witness :
    (10 : ℤ) ≠ 0 ∧
    (assign_level_by_score 8 10 = "advanced" ↔
      ((8 : ℤ) : ℚ) / ((10 : ℤ) : ℚ) * 100 ≥ 80) :=
  ⟨by norm_num, Iff.trans (((classify_contract 8 10).2.1 (by norm_num)).1) (Iff.rfl)⟩

/-- C9: for `total > 0` and `0 ≤ s1 ≤ s2 ≤ total`, the classifier returns
one of the three levels (never "unknown") for both scores, and the level is
monotonically non-decreasing in the score under
beginner < intermediate < advanced. -/
theorem classify_monotone (s1 s2 total : ℤ) (h0 : 0 < total) (hs1 : 0 ≤ s1)
    (h12 : s1 ≤ s2) (h2 : s2 ≤ total) :
    (assign_level_by_score s1 total = "beginner" ∨
     assign_level_by_score s1 total = "intermediate" ∨
     assign_level_by_score s1 total = "advanced") ∧
    (assign_level_by_score s2 total = "beginner" ∨
     assign_level_by_score s2 total = "intermediate" ∨
     assign_level_by_score s2 total = "advanced") ∧
    level_rank (assign_level_by_score s1 total) ≤
      level_rank (assign_level_by_score s2 total) := by
  have ht : total ≠ 0 := ne_of_gt h0
  have h0q : (0 : ℚ) < (total : ℚ) := by exact_mod_cast h0
  have h12q : (s1 : ℚ) ≤ (s2 : ℚ) := by exact_mod_cast h12
  have hmono : (s1 : ℚ) / (total : ℚ) * 100 ≤ (s2 : ℚ) / (total : ℚ) * 100 := by
    gcongr
  rw [assign_eval s1 total ht, assign_eval s2 total ht]
  split_ifs <;>
    refine ⟨by simp, by simp, ?_⟩ <;>
    first
      | decide
      | (exfalso; linarith)

/-- Witness for C9 at `s1 = 5`, `s2 = 8`, `total = 10`. -/
theorem classify_monotone_witness :
    (0 : ℤ) < 10 ∧ (0 : ℤ) ≤ 5 ∧ (5 : ℤ) ≤ 8 ∧ (8 : ℤ) ≤ 10 ∧
    level_rank (assign_level_by_score 5 10) ≤
      level_rank (assign_level_by_score 8 10) :=
  ⟨by decide, by decide, by decide, by decide,
   (classify_monotone 5 8 10 (by decide) (by decide) (by decide) (by decide)).2.2⟩

/-! ### Grading (claims C2, C3, C4, C10) -/

lemma pyLower_eq_empty_iff (s : String) : pyLower s = "" ↔ s = "" := by
  cases s with
  | mk l =>
    constructor
    · intro h
      have h2 : l.map charLower = [] := by
        have h3 := congrArg String.data h
        simpa [pyLower] using h3
      have h4 : l = [] := List.map_eq_nil_iff.mp h2
      rw [h4]
    · intro h
      rw [h]
      rfl

lemma filter_mem_inter (t s : Finset String) :
    t.filter (fun w => w ∈ s) = t ∩ s := by
  ext w
  simp [Finset.mem_filter, Finset.mem_inter]

lemma ratio_iff (m n : ℕ) (hn : 0 < n) :
    ((3 : ℚ) / 5 ≤ (m : ℚ) / (n : ℚ)) ↔ 3 * n ≤ 5 * m := by
  have hnq : (0 : ℚ) < (n : ℚ) := by exact_mod_cast hn
  rw [div_le_div_iff₀ (by norm_num) hnq]
  constructor
  · intro hh
    have hq : ((3 * n : ℕ) : ℚ) ≤ ((5 * m : ℕ) : ℚ) := by push_cast; linarith
    exact_mod_cast hq
  · intro hh
    have hq : ((3 * n : ℕ) : ℚ) ≤ ((5 * m : ℕ) : ℚ) := by exact_mod_cast hh
    push_cast at hq
    linarith

/-- C2 counterexample: on an mcq question whose `correct` key is the empty
string, the empty submitted answer grades as correct, contradicting the
claim that an empty rawAnswer yields `isCorrect = false` for every Choice
question. -/
theorem mcq_empty_key_cex :
    qEmptyKey.qtype = "mcq" ∧ qEmptyKey.correct = some "" ∧
    grade_question qEmptyKey "" = true := by
  decide

/-- C2 (amended): for every mcq question, grading returns true iff the
lowercased, whitespace-stripped answer equals the lowercased,
whitespace-stripped key; an empty rawAnswer yields false whenever the
stripped key is nonempty. -/
theorem mcq_grade_contract (q : Question) (raw : String) (h : q.qtype = "mcq") :
    (grade_question q raw = true ↔
      pyLower (pyStrip raw) = pyLower (pyStrip (q.correct.getD ""))) ∧
    (pyStrip (q.correct.getD "") ≠ "" → grade_question q "" = false) := by
  constructor
  · unfold grade_question
    rw [if_pos h, decide_eq_true_eq, pyStrip_idem]
  · intro hkey
    unfold grade_question
    rw [if_pos h, decide_eq_false_iff_not]
    intro hc
    have h0 : pyStrip (pyStrip "") = "" := rfl
    rw [h0] at hc
    have h1 : pyLower (pyStrip (q.correct.getD "")) = "" := hc.symm.trans rfl
    exact hkey ((pyLower_eq_empty_iff _).mp h1)

/-- Witness for C2 on a well-formed mcq question. -/
theorem mcq_grade_contract_witness :
    qParis.qtype = "mcq" ∧
    (grade_question qParis "  paris " = true ↔
      pyLower (pyStrip "  paris ") = pyLower (pyStrip (qParis.correct.getD ""))) ∧
    pyStrip (qParis.correct.getD "") ≠ "" ∧
    grade_question qParis "" = false :=
  ⟨rfl, (mcq_grade_contract qParis "  paris " rfl).1, by decide,
   (mcq_grade_contract qParis "" rfl).2 (by decide)⟩

/-- C3 counterexample: a question with an empty answer key does not grade
every submission as incorrect — the empty submission on `qEmptyKey` grades
as correct. -/
theorem ungradable_key_cex :
    qEmptyKey.correct.getD "" = "" ∧ grade_question qEmptyKey "" = true := by
  decide

/-- C3 (amended): grading a malformed question is total and deterministic
and never fails, but does not always return false: a FreeText question with
an empty key grades every answer false; an mcq question with an empty key
grades an answer true exactly when the stripped answer is empty; and an mcq
question whose key normalizes to none of its listed options grades every
answer that is one of the listed options as false. -/
theorem ungradable_key_contract (q : Question) (raw : String) :
    (q.qtype ≠ "mcq" → q.correct.getD "" = "" → grade_question q raw = false) ∧
    (q.qtype = "mcq" → q.correct.getD "" = "" →
      (grade_question q raw = true ↔ pyStrip raw = "")) ∧
    (q.qtype = "mcq" → raw ∈ questionOptions q →
      (∀ o ∈ questionOptions q,
        pyLower (pyStrip o) ≠ pyLower (pyStrip (q.correct.getD ""))) →
      grade_question q raw = false) := by
  refine ⟨?_, ?_, ?_⟩
  · intro hq hk
    cases hb : grade_question q raw with
    | false => rfl
    | true =>
      have hh := (grade_subjective_iff q raw hq).mp hb
      rw [hk] at hh
      exact absurd rfl hh.1
  · intro hq hk
    unfold grade_question
    rw [if_pos hq, hk, decide_eq_true_eq, pyStrip_idem]
    constructor
    · intro hc
      refine (pyLower_eq_empty_iff _).mp ?_
      rw [hc]
      rfl
    · intro hc
      rw [hc]
      rfl
  · intro hq hmem hne
    unfold grade_question
    rw [if_pos hq, decide_eq_false_iff_not, pyStrip_idem]
    exact hne raw hmem

/-- Witness for C3 on the three malformed-question shapes. -/
theorem ungradable_key_contract_witness :
    grade_question qEmptySubj "anything" = false ∧
    (grade_question qEmptyKey "  " = true ↔ pyStrip "  " = "") ∧
    grade_question qBadKey "yes" = false :=
  ⟨(ungradable_key_contract qEmptySubj "anything").1 (by decide) (by decide),
   (ungradable_key_contract qEmptyKey "  ").2.1 (by decide) (by decide),
   (ungradable_key_contract qBadKey "yes").2.2 (by decide) (by decide) (by decide)⟩

/-- C4 counterexample: with the specification's tokenizer (alphanumeric
runs), key "a_b" and answer "a b" have identical token sets, so the claim
predicts a correct grade (overlap ratio 1 ≥ 0.6); the source's `\w+`
tokenizer keeps "a_b" as a single token and grades the answer incorrect. -/
theorem freetext_alnum_cex :
    ¬ (grade_question qUnderscore "a b" = true ↔
       (spec_alnum_tokens (qUnderscore.correct.getD "") ≠ ∅ ∧
        (3 : ℚ) / 5 ≤
          ((spec_alnum_tokens (qUnderscore.correct.getD "") ∩
              spec_alnum_tokens "a b").card : ℚ) /
            ((spec_alnum_tokens (qUnderscore.correct.getD "")).card : ℚ))) := by
  intro hiff
  have hg : grade_question qUnderscore "a b" = false := by
    cases hb : grade_question qUnderscore "a b" with
    | false => rfl
    | true => exact absurd ((grade_subjective_iff qUnderscore "a b" (by decide)).mp hb) (by decide)
  have hr : spec_alnum_tokens (qUnderscore.correct.getD "") ≠ ∅ ∧
      (3 : ℚ) / 5 ≤
        ((spec_alnum_tokens (qUnderscore.correct.getD "") ∩
            spec_alnum_tokens "a b").card : ℚ) /
          ((spec_alnum_tokens (qUnderscore.correct.getD "")).card : ℚ) := by
    refine ⟨by decide, ?_⟩
    rw [show (spec_alnum_tokens (qUnderscore.correct.getD "") ∩
        spec_alnum_tokens "a b").card = 2 from by decide,
      show (spec_alnum_tokens (qUnderscore.correct.getD "")).card = 2 from by decide]
    norm_num
  rw [hg] at hiff
  exact absurd (hiff.mpr hr) (by simp)

/-- C4 (amended): for every non-mcq question and submitted answer, grading
returns true iff the key's `\w+` token set (the source's word rule:
alphanumeric or underscore runs of the lowercased text) is nonempty and
`|keyWords ∩ answerWords| / |keyWords| ≥ 0.6`. -/
theorem freetext_grade_contract (q : Question) (raw : String) (h : q.qtype ≠ "mcq") :
    grade_question q raw = true ↔
    (normalize_words (q.correct.getD "") ≠ ∅ ∧
     (3 : ℚ) / 5 ≤
       ((normalize_words (q.correct.getD "") ∩ normalize_words raw).card : ℚ) /
         ((normalize_words (q.correct.getD "")).card : ℚ)) := by
  rw [grade_subjective_iff q raw h]
  constructor
  · rintro ⟨hne, hle⟩
    have hpos : 0 < (normalize_words (q.correct.getD "")).card :=
      Finset.card_pos.mpr (Finset.nonempty_iff_ne_empty.mpr hne)
    refine ⟨hne, ?_⟩
    rw [← filter_mem_inter]
    exact (ratio_iff _ _ hpos).mpr hle
  · rintro ⟨hne, hle⟩
    have hpos : 0 < (normalize_words (q.correct.getD "")).card :=
      Finset.card_pos.mpr (Finset.nonempty_iff_ne_empty.mpr hne)
    refine ⟨hne, ?_⟩
    rw [← filter_mem_inter] at hle
    exact (ratio_iff _ _ hpos).mp hle

/-- Witness for C4: the spec's own worked example. -/
theorem freetext_grade_contract_witness :
    qPrime.qtype ≠ "mcq" ∧
    grade_question qPrime "it is divisible by only 1 and itself" = true :=
  ⟨by decide,
   (freetext_grade_contract qPrime "it is divisible by only 1 and itself"
      (by decide)).mpr
     ⟨by decide, by
        rw [show (normalize_words (qPrime.correct.getD "") ∩
            normalize_words "it is divisible by only 1 and itself").card = 6 from by decide,
          show (normalize_words (qPrime.correct.getD "")).card = 6 from by decide]
        norm_num⟩⟩

/-- C10 counterexample: student answers "a_b" and "a b" have the same
alphanumeric token sets, yet the similarity against the key "a b" differs
(0 versus 1), so the result does not depend only on the alphanumeric token
sets of the arguments. -/
theorem similarity_alnum_cex :
    spec_alnum_tokens "a_b" = spec_alnum_tokens "a b" ∧
    subjective_similarity (some "a_b") (some "a b") ≠
      subjective_similarity (some "a b") (some "a b") := by
  have e1 : subjective_similarity (some "a_b") (some "a b") = 0 := by
    unfold subjective_similarity
    simp only [Option.getD_some]
    rw [if_neg (by decide)]
    rw [show ((normalize_words "a b").filter
        (fun w => w ∈ normalize_words "a_b")).card = 0 from by decide]
    norm_num
  have e2 : subjective_similarity (some "a b") (some "a b") = 1 := by
    unfold subjective_similarity
    simp only [Option.getD_some]
    rw [if_neg (by decide)]
    rw [show ((normalize_words "a b").filter
        (fun w => w ∈ normalize_words "a b")).card = 2 from by decide,
      show (normalize_words "a b").card = 2 from by decide]
    norm_num
  exact ⟨by decide, by rw [e1, e2]; norm_num⟩

/-- C10 (amended): `subjective_similarity` is total on nullable inputs,
returns a rational in [0, 1], returns 0 whenever the key has no `\w+`
tokens, and its value depends only on the `\w+` token sets (alphanumeric or
underscore runs) of its two arguments. -/
theorem similarity_props (s t : Option String) :
    0 ≤ subjective_similarity s t ∧ subjective_similarity s t ≤ 1 ∧
    (normalize_words (t.getD "") = ∅ → subjective_similarity s t = 0) ∧
    (∀ s2 t2 : Option String,
      normalize_words (s.getD "") = normalize_words (s2.getD "") →
      normalize_words (t.getD "") = normalize_words (t2.getD "") →
      subjective_similarity s t = subjective_similarity s2 t2) := by
  refine ⟨?_, ?_, ?_, ?_⟩
  · unfold subjective_similarity
    split
    · exact le_refl 0
    · positivity
  · unfold subjective_similarity
    split
    · norm_num
    · rename_i hne
      have hpos : (0 : ℚ) < ((normalize_words (t.getD "")).card : ℚ) := by
        have := Finset.card_pos.mpr (Finset.nonempty_iff_ne_empty.mpr hne)
        exact_mod_cast this
      rw [div_le_one hpos]
      exact_mod_cast Finset.card_filter_le _ _
  · intro he
    unfold subjective_similarity
    rw [if_pos he]
  · intro s2 t2 hs ht
    unfold subjective_similarity
    simp only [hs, ht]

/-- Witness for C10: a `None` key yields 0, and similarity is invariant
under case, order, repetition and punctuation of the arguments. -/
theorem similarity_props_witness :
    0 ≤ subjective_similarity (some "abc") none ∧
    subjective_similarity (some "abc") none = 0 ∧
    subjective_similarity (some "Hello, world!") (some "the world") =
      subjective_similarity (some "world hello hello") (some "the... WORLD?") :=
  ⟨(similarity_props (some "abc") none).1,
   (similarity_props (some "abc") none).2.2.1 rfl,
   (similarity_props (some "Hello, world!") (some "the world")).2.2.2
     (some "world hello hello") (some "the... WORLD?") (by decide) (by decide)⟩

/-! ### The adaptive level filter (claim C7) -/

lemma level_allows_beginner (q : Question) :
    level_allows "beginner" q =
      decide (q.difficulty = "easy" ∨ q.difficulty = "medium") := by
  unfold level_allows
  rw [decide_eq_decide]
  have h1 : ("beginner" : String) ≠ "intermediate" := by decide
  have h2 : ("beginner" : String) ≠ "advanced" := by decide
  constructor
  · rintro ⟨_, hcase⟩
    rcases hcase with ⟨_, hd⟩ | ⟨hl, _⟩ | ⟨hl, _⟩
    · exact hd
    · exact absurd hl h1
    · exact absurd hl h2
  · intro hd
    exact ⟨by tauto, Or.inl ⟨rfl, hd⟩⟩

lemma level_allows_intermediate (q : Question) :
    level_allows "intermediate" q =
      decide (q.difficulty = "medium" ∨ q.difficulty = "hard") := by
  unfold level_allows
  rw [decide_eq_decide]
  have h1 : ("intermediate" : String) ≠ "beginner" := by decide
  have h2 : ("intermediate" : String) ≠ "advanced" := by decide
  constructor
  · rintro ⟨_, hcase⟩
    rcases hcase with ⟨hl, _⟩ | ⟨_, hd⟩ | ⟨hl, _⟩
    · exact absurd hl h1
    · exact hd
    · exact absurd hl h2
  · intro hd
    exact ⟨by tauto, Or.inr (Or.inl ⟨rfl, hd⟩)⟩

lemma level_allows_advanced (q : Question) :
    level_allows "advanced" q =
      decide (q.difficulty = "hard" ∨ q.difficulty = "medium") := by
  unfold level_allows
  rw [decide_eq_decide]
  have h1 : ("advanced" : String) ≠ "beginner" := by decide
  have h2 : ("advanced" : String) ≠ "intermediate" := by decide
  constructor
  · rintro ⟨_, hcase⟩
    rcases hcase with ⟨hl, _⟩ | ⟨hl, _⟩ | ⟨_, hd⟩
    · exact absurd hl h1
    · exact absurd hl h2
    · exact hd
  · intro hd
    exact ⟨by tauto, Or.inr (Or.inr ⟨rfl, hd⟩)⟩

/-- C7: the adaptive filter restricts the page's questions to the
difficulty set of the student's level (beginner → easy/medium,
intermediate → medium/hard, advanced → hard/medium), leaves the list
unfiltered for an unknown or unset level or when the quiz does not use the
filter, falls back to the unfiltered list when the restriction is empty,
and never turns a nonempty list into an empty one. -/
theorem level_filter_contract (lvl : String) (qs : List Question) :
    (apply_level_filter true "unknown" qs = qs) ∧
    (apply_level_filter true "" qs = qs) ∧
    (apply_level_filter false lvl qs = qs) ∧
    (lvl = "beginner" →
      apply_level_filter true lvl qs =
        if qs.filter (fun q => decide (q.difficulty = "easy" ∨ q.difficulty = "medium")) = []
        then qs
        else qs.filter (fun q => decide (q.difficulty = "easy" ∨ q.difficulty = "medium"))) ∧
    (lvl = "intermediate" →
      apply_level_filter true lvl qs =
        if qs.filter (fun q => decide (q.difficulty = "medium" ∨ q.difficulty = "hard")) = []
        then qs
        else qs.filter (fun q => decide (q.difficulty = "medium" ∨ q.difficulty = "hard"))) ∧
    (lvl = "advanced" →
      apply_level_filter true lvl qs =
        if qs.filter (fun q => decide (q.difficulty = "hard" ∨ q.difficulty = "medium")) = []
        then qs
        else qs.filter (fun q => decide (q.difficulty = "hard" ∨ q.difficulty = "medium"))) ∧
    (apply_level_filter true lvl qs = [] → qs = []) := by
  have hfilter : ∀ (p : Question → Bool),
      (if (qs.filter p).isEmpty then qs else qs.filter p) =
      (if qs.filter p = [] then qs else qs.filter p) := by
    intro p
    by_cases hp : qs.filter p = []
    · rw [if_pos hp, if_pos (List.isEmpty_iff.mpr hp)]
    · rw [if_neg hp, if_neg (fun hc => hp (List.isEmpty_iff.mp hc))]
  refine ⟨?_, ?_, ?_, ?_, ?_, ?_, ?_⟩
  · unfold apply_level_filter
    rw [if_neg (by simp)]
  · unfold apply_level_filter
    rw [if_neg (by simp)]
  · unfold apply_level_filter
    rw [if_neg (by simp)]
  · intro hl
    subst hl
    unfold apply_level_filter
    rw [if_pos ⟨rfl, by decide, by decide⟩]
    rw [show qs.filter (level_allows "beginner") =
        qs.filter (fun q => decide (q.difficulty = "easy" ∨ q.difficulty = "medium")) from
      List.filter_congr (fun q _ => level_allows_beginner q)]
    exact hfilter _
  · intro hl
    subst hl
    unfold apply_level_filter
    rw [if_pos ⟨rfl, by decide, by decide⟩]
    rw [show qs.filter (level_allows "intermediate") =
        qs.filter (fun q => decide (q.difficulty = "medium" ∨ q.difficulty = "hard")) from
      List.filter_congr (fun q _ => level_allows_intermediate q)]
    exact hfilter _
  · intro hl
    subst hl
    unfold apply_level_filter
    rw [if_pos ⟨rfl, by decide, by decide⟩]
    rw [show qs.filter (level_allows "advanced") =
        qs.filter (fun q => decide (q.difficulty = "hard" ∨ q.difficulty = "medium")) from
      List.filter_congr (fun q _ => level_allows_advanced q)]
    exact hfilter _
  · unfold apply_level_filter
    split
    · split
      · exact fun h => h
      · rename_i hne
        intro hc
        rw [hc] at hne
        simp at hne
    · exact fun h => h

/-- Witness for C7: a beginner sees only the easy/medium questions of a
mixed page, and a page with no allowed questions is passed through. -/
theorem level_filter_contract_witness :
    ("beginner" : String) = "beginner" ∧
    apply_level_filter true "beginner"
        [⟨1, none, none, "a", "mcq", none, none, none, none, some "x", "easy", 1⟩,
         ⟨2, none, none, "b", "mcq", none, none, none, none, some "x", "hard", 1⟩] =
      (if ([⟨1, none, none, "a", "mcq", none, none, none, none, some "x", "easy", 1⟩,
            ⟨2, none, none, "b", "mcq", none, none, none, none, some "x", "hard", 1⟩] :
          List Question).filter
            (fun q => decide (q.difficulty = "easy" ∨ q.difficulty = "medium")) = []
       then [⟨1, none, none, "a", "mcq", none, none, none, none, some "x", "easy", 1⟩,
             ⟨2, none, none, "b", "mcq", none, none, none, none, some "x", "hard", 1⟩]
       else ([⟨1, none, none, "a", "mcq", none, none, none, none, some "x", "easy", 1⟩,
              ⟨2, none, none, "b", "mcq", none, none, none, none, some "x", "hard", 1⟩] :
            List Question).filter
              (fun q => decide (q.difficulty = "easy" ∨ q.difficulty = "medium"))) :=
  ⟨rfl,
   (level_filter_contract "beginner"
      [⟨1, none, none, "a", "mcq", none, none, none, none, some "x", "easy", 1⟩,
       ⟨2, none, none, "b", "mcq", none, none, none, none, some "x", "hard", 1⟩]).2.2.2.1 rfl⟩

/-! ### Aggregation (claim C8) -/

lemma round2_three_fourths : round2 (((3 : ℤ) : ℚ) / ((4 : ℕ) : ℚ) * 100) = 75 := by
  unfold round2
  rw [show (((3 : ℤ) : ℚ) / ((4 : ℕ) : ℚ) * 100) * 100 = ((7500 : ℤ) : ℚ) from by
    push_cast
    norm_num]
  rw [round_intCast]
  norm_num

/-- C8: for every attempt list and grouping key, aggregating the empty list
yields the empty mapping; every reported group has a positive count and its
percentage equals `correctCount / count * 100` rounded to two decimals
(so no division by zero ever occurs, the `count or 1` guard never changing
a value); and the 3-correct-out-of-4 example reports 75 both on the
dashboard and on the quiz-complete page. -/
theorem aggregate_contract :
    (∀ (K : Type) [DecidableEq K] (attempts : List Attempt) (key : Attempt → K),
      (attempts = [] → aggregate attempts key = []) ∧
      (∀ g ∈ aggregate attempts key, 0 < g.count ∧
        g.percentage = round2 ((g.correctCount : ℚ) / (g.count : ℚ) * 100))) ∧
    aggregate demoAttempts (fun a => a.quiz_id) = [⟨7, 4, 3, 75⟩] ∧
    quiz_complete_pct demoAttempts 1 7 = 75 := by
  refine ⟨?_, ?_, ?_⟩
  · intro K instK attempts key
    constructor
    · intro h
      subst h
      rfl
    · intro g hg
      unfold aggregate at hg
      obtain ⟨k, hk, hgk⟩ := List.mem_map.mp hg
      obtain ⟨a, ha, hka⟩ := List.mem_map.mp (List.mem_dedup.mp hk)
      have hrow : a ∈ groupRows attempts key k :=
        List.mem_filter.mpr ⟨ha, by simp [hka]⟩
      have hpos : 0 < (groupRows attempts key k).length := by
        refine List.length_pos.mpr ?_
        intro hc
        rw [hc] at hrow
        simp at hrow
      rw [← hgk]
      dsimp only
      refine ⟨hpos, ?_⟩
      rw [if_neg (Nat.pos_iff_ne_zero.mp hpos)]
  · have hd : ((demoAttempts.map (fun a => a.quiz_id)).dedup) = [7] := by decide
    unfold aggregate
    rw [hd]
    simp only [List.map_cons, List.map_nil]
    rw [show ((groupRows demoAttempts (fun a => a.quiz_id) 7).map
        (fun a => a.correct)).sum = 3 from by decide]
    rw [show (groupRows demoAttempts (fun a => a.quiz_id) 7).length = 4 from by decide]
    rw [if_neg (by decide : ¬(4 = 0))]
    rw [round2_three_fourths]
  · unfold quiz_complete_pct
    rw [if_pos (by decide : 0 < (quizRows demoAttempts 1 7).length)]
    rw [show ((quizRows demoAttempts 1 7).map (fun a => a.correct)).sum = 3 from by decide]
    rw [show (quizRows demoAttempts 1 7).length = 4 from by decide]
    exact round2_three_fourths

/-- Witness for C8: the empty attempt list aggregates to the empty
mapping. -/
theorem aggregate_contract_witness :
    aggregate ([] : List Attempt) (fun a => a.quiz_id) = [] :=
  (aggregate_contract.1 ℕ ([] : List Attempt) (fun a => a.quiz_id)).1 rfl

/-! ### Question selection (claims C5, C6) -/

lemma subperm_nodup {α : Type} {l1 l2 : List α} (h : l1.Subperm l2)
    (h2 : l2.Nodup) : l1.Nodup := by
  obtain ⟨l, hp, hs⟩ := h
  exact hp.nodup_iff.mp (h2.sublist hs)

lemma subperm_map {α β : Type} (f : α → β) {l1 l2 : List α} (h : l1.Subperm l2) :
    (l1.map f).Subperm (l2.map f) := by
  obtain ⟨l, hp, hs⟩ := h
  exact ⟨l.map f, hp.map f, hs.map f⟩

lemma mem_pickPool {pool : List Question} {d : String} {q : Question} :
    q ∈ pickPool pool d ↔ q ∈ pool ∧ q.difficulty = d := by
  simp [pickPool]

lemma sample_bucket_facts {pool : List Question} {d : String} {k : ℕ}
    {s : List Question} (hpool : pool.Nodup)
    (hs : IsSample s (pickPool pool d) k) :
    s.Nodup ∧ s ⊆ pool ∧ (∀ q ∈ s, q.difficulty = d) ∧ s.length ≤ k := by
  have hnodup : (pickPool pool d).Nodup := hpool.filter _
  refine ⟨subperm_nodup hs.1 hnodup, ?_, ?_, ?_⟩
  · intro q hq
    exact (mem_pickPool.mp (hs.1.subset hq)).1
  · intro q hq
    exact (mem_pickPool.mp (hs.1.subset hq)).2
  · rw [hs.2]
    exact Nat.min_le_left _ _

lemma placement_base_facts {pool e md hd : List Question} {ke km kh : ℕ}
    (hpool : pool.Nodup)
    (he : IsSample e (pickPool pool "easy") ke)
    (hm : IsSample md (pickPool pool "medium") km)
    (hh : IsSample hd (pickPool pool "hard") kh) :
    (e ++ md ++ hd).Nodup ∧ (e ++ md ++ hd) ⊆ pool ∧
    (e ++ md ++ hd).length ≤ ke + km + kh := by
  obtain ⟨heN, heS, heD, heL⟩ := sample_bucket_facts hpool he
  obtain ⟨hmN, hmS, hmD, hmL⟩ := sample_bucket_facts hpool hm
  obtain ⟨hhN, hhS, hhD, hhL⟩ := sample_bucket_facts hpool hh
  refine ⟨?_, ?_, ?_⟩
  · rw [List.nodup_append]
    refine ⟨?_, hhN, ?_⟩
    · rw [List.nodup_append]
      refine ⟨heN, hmN, ?_⟩
      intro q hqe hqm
      have h1 := heD q hqe
      have h2 := hmD q hqm
      rw [h1] at h2
      exact absurd h2 (by decide)
    · intro q hq hqh
      have h2 := hhD q hqh
      rcases List.mem_append.mp hq with hqe | hqm
      · have h1 := heD q hqe
        rw [h1] at h2
        exact absurd h2 (by decide)
      · have h1 := hmD q hqm
        rw [h1] at h2
        exact absurd h2 (by decide)
  · intro q hq
    rcases List.mem_append.mp hq with hq2 | hqh
    · rcases List.mem_append.mp hq2 with hqe | hqm
      · exact heS hqe
      · exact hmS hqm
    · exact hhS hqh
  · rw [List.length_append, List.length_append]
    omega

lemma length_filter_not_mem {α : Type} [DecidableEq α] {pool base : List α}
    (hpool : pool.Nodup) (hbase : base.Nodup) (hsub : base ⊆ pool) :
    (pool.filter (fun q => decide (q ∉ base))).length = pool.length - base.length := by
  have hperm : (pool.filter (fun q => decide (q ∈ base))).Perm base := by
    refine (List.perm_ext_iff_of_nodup (hpool.filter _) hbase).mpr ?_
    intro a
    simp only [List.mem_filter, decide_eq_true_eq]
    constructor
    · exact fun hx => hx.2
    · exact fun hx => ⟨hsub hx, hx⟩
  have hsplit := @List.length_eq_length_filter_add _ pool (fun q => decide (q ∈ base))
  have hlen : (pool.filter (fun q => decide (q ∈ base))).length = base.length :=
    hperm.length_eq
  have hnotg : (pool.filter (fun q => !(decide (q ∈ base)))).length
      = (pool.filter (fun q => decide (q ∉ base))).length := by
    congr 1
    refine List.filter_congr ?_
    intro q _
    rw [decide_not]
  omega

/-- C5 counterexample: the quota draws run before the desired-count check,
so with desiredCount 0 and a quota of one easy question the selection
returns one question: more than `min(desiredCount, |pool|) = 0`, and not
the empty result the claim requires for `desiredCount ≤ 0`. -/
theorem select_bound_cex :
    PlacementSelect [qEasy] 1 0 0 0 [qEasy] ∧
    ¬ ([qEasy].length ≤ min (Int.toNat 0) [qEasy].length) ∧
    ¬ ((0 : ℤ) ≤ 0 → ([qEasy] : List Question) = []) := by
  refine ⟨?_, by decide, by decide⟩
  refine ⟨[qEasy], [], [], ⟨?_, by decide⟩, ⟨List.nil_subperm, by decide⟩,
    ⟨List.nil_subperm, by decide⟩, Or.inl ⟨by decide, by decide⟩⟩
  rw [show pickPool [qEasy] "easy" = [qEasy] from by decide]

/-- C5 (amended): for every pool of distinct question ids and every quota
profile whose quota sum is at most desiredCount (as in the source, where
2 + 2 + 1 = 5), every possible selection returns at most
`min(desiredCount, |pool|)` questions with no duplicate question ids; an
empty pool yields an empty result and `desiredCount ≤ 0` yields an empty
result. -/
theorem select_bound (pool : List Question) (ke km kh : ℕ) (n : ℤ)
    (chosen : List Question) (hid : (pool.map Question.id).Nodup)
    (hsum : ((ke : ℤ) + km + kh) ≤ n)
    (hsel : PlacementSelect pool ke km kh n chosen) :
    chosen.length ≤ min n.toNat pool.length ∧
    (chosen.map Question.id).Nodup ∧
    (pool = [] → chosen = []) ∧
    (n ≤ 0 → chosen = []) := by
  have hpool : pool.Nodup := List.Nodup.of_map Question.id hid
  obtain ⟨e, md, hd, he, hm, hh, hcase⟩ := hsel
  obtain ⟨hbN, hbS, hbL⟩ := placement_base_facts hpool he hm hh
  rcases hcase with ⟨hnlt, hch⟩ | ⟨hlt, f, hf, hch⟩
  · subst hch
    have hsp : (e ++ md ++ hd).Subperm pool := List.subperm_of_subset hbN hbS
    refine ⟨?_, ?_, ?_, ?_⟩
    · refine le_min ?_ hsp.length_le
      omega
    · exact subperm_nodup (subperm_map Question.id hsp) hid
    · intro hp0
      subst hp0
      exact List.subset_nil.mp hbS
    · intro hn0
      have h0 : (e ++ md ++ hd).length = 0 := by omega
      exact List.length_eq_zero.mp h0
  · have hrestN : (pool.filter (fun q => decide (q ∉ e ++ md ++ hd))).Nodup :=
      hpool.filter _
    have hfN : f.Nodup := subperm_nodup hf.1 hrestN
    have hfS : f ⊆ pool := by
      intro q hq
      exact (List.mem_filter.mp (hf.1.subset hq)).1
    have hfD : ∀ q ∈ f, q ∉ e ++ md ++ hd := by
      intro q hq
      have h2 := (List.mem_filter.mp (hf.1.subset hq)).2
      simpa using h2
    have hchN : chosen.Nodup := by
      subst hch
      rw [List.nodup_append]
      exact ⟨hbN, hfN, fun q hqb hqf => hfD q hqf hqb⟩
    have hchS : chosen ⊆ pool := by
      subst hch
      intro q hq
      rcases List.mem_append.mp hq with h | h
      · exact hbS h
      · exact hfS h
    have hsp : chosen.Subperm pool := List.subperm_of_subset hchN hchS
    have hrl : (pool.filter (fun q => decide (q ∉ e ++ md ++ hd))).length
        = pool.length - (e ++ md ++ hd).length :=
      length_filter_not_mem hpool hbN hbS
    have hfl : f.length = min (n - ((e ++ md ++ hd).length : ℤ)).toNat
        (pool.length - (e ++ md ++ hd).length) := by
      rw [hf.2, hrl]
    have hchL : chosen.length = (e ++ md ++ hd).length + f.length := by
      subst hch
      rw [List.length_append]
    refine ⟨?_, ?_, ?_, ?_⟩
    · refine le_min ?_ hsp.length_le
      omega
    · exact subperm_nodup (subperm_map Question.id hsp) hid
    · intro hp0
      subst hp0
      exact List.subset_nil.mp hchS
    · intro hn0
      exfalso
      omega

/-- Witness for C5 at the source's constants: quotas 2/2/1, desiredCount 5,
a one-question pool. -/
theorem select_bound_witness :
    ([qEasy].map Question.id).Nodup ∧ ((2 : ℤ) + 2 + 1) ≤ 5 ∧
    PlacementSelect [qEasy] 2 2 1 5 [qEasy] ∧
    ([qEasy].length ≤ min (Int.toNat 5) [qEasy].length ∧
     ([qEasy].map Question.id).Nodup ∧
     (([qEasy] : List Question) = [] → [qEasy] = []) ∧
     ((5 : ℤ) ≤ 0 → ([qEasy] : List Question) = [])) := by
  have hsel : PlacementSelect [qEasy] 2 2 1 5 [qEasy] := by
    refine ⟨[qEasy], [], [], ⟨?_, by decide⟩, ⟨List.nil_subperm, by decide⟩,
      ⟨List.nil_subperm, by decide⟩,
      Or.inr ⟨by decide, [], ⟨List.nil_subperm, by decide⟩, by decide⟩⟩
    rw [show pickPool [qEasy] "easy" = [qEasy] from by decide]
  exact ⟨by decide, by decide, hsel,
    select_bound [qEasy] 2 2 1 5 [qEasy] (by decide) (by decide) hsel⟩

/-- C6: every possible selection decomposes into three difficulty-bucket
draws — each without replacement from its bucket, of size
`min(quota, |bucket|)` (the whole bucket when it is smaller than the
quota) — and, when the combined draw has fewer than desiredCount items, a
fill drawn without replacement from the not-yet-chosen pool ignoring
difficulty, after which the selection has exactly
`min(desiredCount, |pool|)` items. -/
theorem select_algorithm (pool : List Question) (ke km kh : ℕ) (n : ℤ)
    (chosen : List Question) (hid : (pool.map Question.id).Nodup)
    (hsel : PlacementSelect pool ke km kh n chosen) :
    ∃ e md hd,
      (e.Nodup ∧ (∀ q ∈ e, q ∈ pickPool pool "easy") ∧
        e.length = min ke (pickPool pool "easy").length) ∧
      (md.Nodup ∧ (∀ q ∈ md, q ∈ pickPool pool "medium") ∧
        md.length = min km (pickPool pool "medium").length) ∧
      (hd.Nodup ∧ (∀ q ∈ hd, q ∈ pickPool pool "hard") ∧
        hd.length = min kh (pickPool pool "hard").length) ∧
      ((¬(((e ++ md ++ hd).length : ℤ) < n) ∧ chosen = e ++ md ++ hd) ∨
       ((((e ++ md ++ hd).length : ℤ) < n) ∧ ∃ f, f.Nodup ∧
          (∀ q ∈ f, q ∈ pool ∧ q ∉ e ++ md ++ hd) ∧
          chosen = (e ++ md ++ hd) ++ f ∧
          chosen.length = min n.toNat pool.length)) := by
  have hpool : pool.Nodup := List.Nodup.of_map Question.id hid
  obtain ⟨e, md, hd, he, hm, hh, hcase⟩ := hsel
  obtain ⟨hbN, hbS, hbL⟩ := placement_base_facts hpool he hm hh
  refine ⟨e, md, hd,
    ⟨subperm_nodup he.1 (hpool.filter _), fun q hq => he.1.subset hq, he.2⟩,
    ⟨subperm_nodup hm.1 (hpool.filter _), fun q hq => hm.1.subset hq, hm.2⟩,
    ⟨subperm_nodup hh.1 (hpool.filter _), fun q hq => hh.1.subset hq, hh.2⟩, ?_⟩
  rcases hcase with ⟨hnlt, hch⟩ | ⟨hlt, f, hf, hch⟩
  · exact Or.inl ⟨hnlt, hch⟩
  · refine Or.inr ⟨hlt, f, subperm_nodup hf.1 (hpool.filter _), ?_, hch, ?_⟩
    · intro q hq
      have hmem := hf.1.subset hq
      refine ⟨(List.mem_filter.mp hmem).1, ?_⟩
      have h2 := (List.mem_filter.mp hmem).2
      simpa using h2
    · have hrl : (pool.filter (fun q => decide (q ∉ e ++ md ++ hd))).length
          = pool.length - (e ++ md ++ hd).length :=
        length_filter_not_mem hpool hbN hbS
      have hble : (e ++ md ++ hd).length ≤ pool.length :=
        (List.subperm_of_subset hbN hbS).length_le
      have hfl := hf.2
      rw [hrl] at hfl
      subst hch
      rw [List.length_append]
      omega

/-- Witness for C6 at the source's constants on a one-question pool. -/
theorem select_algorithm_witness :
    ([qEasy].map Question.id).Nodup ∧ PlacementSelect [qEasy] 2 2 1 5 [qEasy] ∧
    (∃ e md hd,
      (e.Nodup ∧ (∀ q ∈ e, q ∈ pickPool [qEasy] "easy") ∧
        e.length = min 2 (pickPool [qEasy] "easy").length) ∧
      (md.Nodup ∧ (∀ q ∈ md, q ∈ pickPool [qEasy] "medium") ∧
        md.length = min 2 (pickPool [qEasy] "medium").length) ∧
      (hd.Nodup ∧ (∀ q ∈ hd, q ∈ pickPool [qEasy] "hard") ∧
        hd.length = min 1 (pickPool [qEasy] "hard").length) ∧
      ((¬(((e ++ md ++ hd).length : ℤ) < 5) ∧ [qEasy] = e ++ md ++ hd) ∨
       ((((e ++ md ++ hd).length : ℤ) < 5) ∧ ∃ f, f.Nodup ∧
          (∀ q ∈ f, q ∈ [qEasy] ∧ q ∉ e ++ md ++ hd) ∧
          ([qEasy] : List Question) = (e ++ md ++ hd) ++ f ∧
          ([qEasy] : List Question).length = min (Int.toNat 5) [qEasy].length))) := by
  have hsel : PlacementSelect [qEasy] 2 2 1 5 [qEasy] := by
    refine ⟨[qEasy], [], [], ⟨?_, by decide⟩, ⟨List.nil_subperm, by decide⟩,
      ⟨List.nil_subperm, by decide⟩,
      Or.inr ⟨by decide, [], ⟨List.nil_subperm, by decide⟩, by decide⟩⟩
    rw [show pickPool [qEasy] "easy" = [qEasy] from by decide]
  exact ⟨by decide, hsel, select_algorithm [qEasy] 2 2 1 5 [qEasy] (by decide) hsel⟩
